import Mathlib

set_option maxHeartbeats 1000000
set_option maxRecDepth 8000

/-!
Shallow embedding of the `logtool` rotating multi-stream file logger
(`filelog.go` and its package-level configuration code), together with
theorems settling the specification claims about it.

Go strings are modelled as `List Char` where their byte content matters
(paths, assembled lines); impure collaborators (wall clock formatting,
`GetPrefix`, the operating system) become explicit parameters or an
oracle structure `FS`.  Effectful calls are recorded in an `IOEv` trace
so that ordering and console-reporting behaviour is observable.
-/

namespace Logtool

/-- Go constant `MaxSize uint64 = 1024 * 1024 * 1800`. -/
def MaxSize : Nat := 1024 * 1024 * 1800

/-- Go constant `bufferSize = 256 * 1024` (bufio writer capacity). -/
def bufferSize : Nat := 256 * 1024

/-- Go `type Level byte`, embedded as `Nat` (the program uses values 0–5;
a byte allows 0–255, which matters for the array-indexing claim). -/
abbrev Level := Nat

def levelDefault : Level := 0
def LevelDebug : Level := 1
def LevelInfo : Level := 2
def LevelWarn : Level := 3
def LevelError : Level := 4
def LevelAction : Level := 5

/-- Go `var levelName = []string{...}`. -/
def levelName : List String := ["output", "debug", "info", "warn", "error", "action"]

/-- The fields of a Go `time.Time` that the logger reads: `t.Date()` and `t.Hour()`. -/
structure GoTime where
  year : Nat
  month : Nat
  day : Nat
  hour : Nat
deriving DecidableEq

/-- The zero `time.Time` (January 1, year 1, 00h), the `stime` of a fresh `bufferWriter`. -/
def GoTime.zero : GoTime := ⟨1, 1, 1, 0⟩

/-- Same calendar date and hour: the (date, hour) part of a Rotation Key coincides. -/
abbrev sameDateHour (a b : GoTime) : Prop :=
  a.year = b.year ∧ a.month = b.month ∧ a.day = b.day ∧ a.hour = b.hour

/-! ## Buffer pool (`buffer`, `getBuffer`, `putBuffer`) -/

/-- A Go `bytes.Buffer` as the free-list pool sees it: unread content and capacity.
The `next` link of Go's `buffer` is represented by the position in a `List`. -/
structure GoBuffer where
  data : List Nat
  capacity : Nat
deriving DecidableEq

/-- `bytes.Buffer.Len()`. -/
def GoBuffer.len (b : GoBuffer) : Nat := b.data.length

/-- `bytes.Buffer.Reset()`: drops content, keeps the underlying capacity. -/
def GoBuffer.reset (b : GoBuffer) : GoBuffer := { b with data := [] }

/-- Writing to a `bytes.Buffer`: content grows; capacity grows when exceeded. -/
def GoBuffer.write (b : GoBuffer) (p : List Nat) : GoBuffer :=
  { data := b.data ++ p, capacity := max b.capacity (b.data.length + p.length) }

/-- Go `fileLogWriter.getBuffer`: pop the free-list head and `Reset()` it;
allocate `new(buffer)` (empty, zero capacity) when the list is empty. -/
def getBuffer : List GoBuffer → GoBuffer × List GoBuffer
  | [] => (⟨[], 0⟩, [])
  | b :: rest => (b.reset, rest)

/-- Go `fileLogWriter.putBuffer`: `if b.Len() >= 256 { return }`, else push
onto the free list.  Note the Go code tests `Len()`, the current content
length, not the capacity. -/
def putBuffer (b : GoBuffer) (freeList : List GoBuffer) : List GoBuffer :=
  if b.len ≥ 256 then freeList else b :: freeList

/-! ## Decimal formatting (Go `fmt` verbs used by `createFile`) -/

/-- The ASCII digit character for `d < 10`. -/
def digitChar (d : Nat) : Char := Char.ofNat (48 + d)

/-- Go `%d` rendering of a natural number, with structural fuel
(`fuel = n + 1` always suffices since `n / 10 < n` for `n ≥ 10`). -/
def natCharsF : Nat → Nat → List Char
  | 0, _ => []
  | fuel + 1, n =>
    if n < 10 then [digitChar n] else natCharsF fuel (n / 10) ++ [digitChar (n % 10)]

/-- Go `%d` rendering of a natural number. -/
def natChars (n : Nat) : List Char := natCharsF (n + 1) n

/-- Left zero-padding to width `w` (Go `%0wd` for values that fit). -/
def pad0 (w : Nat) (s : List Char) : List Char := List.replicate (w - s.length) '0' ++ s

/-- Go `%0wd` of a natural number. -/
def fmt0 (w n : Nat) : List Char := pad0 w (natChars n)

/-- Go `%d` of an `int` (the rotation slot). -/
def intChars (i : Int) : List Char :=
  if i < 0 then '-' :: natChars (-i).toNat else natChars i.toNat

/-! ## Path cleaning and joining (Go `path/filepath`) -/

/-- Segment processing of Go `path.Clean`: drop empty and `.` segments,
let `..` pop the previous segment (kept at the start of a relative path,
dropped at the root of an absolute one). -/
def cleanSegsAux (rooted : Bool) : List (List Char) → List (List Char) → List (List Char)
  | acc, [] => acc
  | acc, seg :: rest =>
    if seg = [] ∨ seg = ['.'] then cleanSegsAux rooted acc rest
    else if seg = ['.', '.'] then
      if acc = [] then
        if rooted then cleanSegsAux rooted [] rest
        else cleanSegsAux rooted [seg] rest
      else if acc.getLast? = some ['.', '.'] then cleanSegsAux rooted (acc ++ [seg]) rest
      else cleanSegsAux rooted acc.dropLast rest
    else cleanSegsAux rooted (acc ++ [seg]) rest

/-- `strings.Join(segs, "/")`. -/
def joinSegs : List (List Char) → List Char
  | [] => []
  | [s] => s
  | s :: rest => s ++ '/' :: joinSegs rest

/-- Go `path.Clean` (equivalently `filepath.Clean` on slash-separated paths),
modelled segment-wise: split on `/`, process segments, reassemble. -/
def goClean (p : List Char) : List Char :=
  if p = [] then ['.']
  else
    let rooted : Bool := p.head? = some '/'
    let segs := cleanSegsAux rooted [] (p.splitOn '/')
    let out := (if rooted then ['/'] else []) ++ joinSegs segs
    if out = [] then ['.'] else out

/-- Go `filepath.Join(a, b)`: empty elements are skipped, the rest are
joined with `/` and cleaned. -/
def goJoin (a b : List Char) : List Char :=
  if a = [] ∧ b = [] then []
  else if a = [] then goClean b
  else if b = [] then goClean a
  else goClean (a ++ '/' :: b)

/-! ## Path resolution (`createFile`) -/

/-- Go `levelName[level]` (in-range for every level the program uses;
out-of-range indices are totalized to `""`). -/
def levelNameTok (level : Level) : List Char := (levelName.getD level "").toList

/-- Go `strings.HasSuffix(basePath, "/")` handling at the top of `createFile`. -/
def ensureSlash (p : List Char) : List Char :=
  if p.getLast? = some '/' then p else p ++ ['/']

/-- The `logDir` computed by `createFile`:
`filepath.Join(basePath+"logs", fmt.Sprintf("%s/%04d%02d/%02d/", logName, year, month, day))`. -/
def logDirOf (basePath logName : List Char) (t : GoTime) : List Char :=
  let bp := ensureSlash basePath ++ "logs".toList
  goJoin bp (logName ++ '/' :: ((fmt0 4 t.year ++ fmt0 2 t.month) ++ '/' :: (fmt0 2 t.day ++ ['/'])))

/-- The `logFile` name computed by `createFile`:
`"%s-%02d.log"` when `slot <= 0`, `"%s-%02d-%d.log"` otherwise. -/
def logFileOf (level : Level) (slot : Int) (t : GoTime) : List Char :=
  if slot ≤ 0 then levelNameTok level ++ '-' :: (fmt0 2 t.hour ++ ".log".toList)
  else levelNameTok level ++ '-' :: (fmt0 2 t.hour ++ '-' :: (intChars slot ++ ".log".toList))

/-- Outcomes the operating system hands back to the logger. -/
structure FS where
  mkdirRes : List Char → Option String
  openRes : List Char → Except String Nat
  flushRes : Nat → Option String
  syncRes : Nat → Option String

/-- Observable effectful calls made by the logger. -/
inductive IOEv where
  | mkdirAll (dir : List Char)
  | openFile (path : List Char)
  | flushW (fileId : Nat)
  | closeF (fileId : Nat)
  | syncF (fileId : Nat)
  | writeB (fileId : Nat) (line : List Char)
  | println (msg : String)
deriving DecidableEq

/-- The console (fallback channel) output contained in a trace. -/
def consoleOf (evs : List IOEv) : List String :=
  evs.filterMap fun ev => match ev with
    | .println m => some m
    | _ => none

/-- Go `createFile`: `os.MkdirAll(logDir, ...)`, then
`os.OpenFile(filepath.Join(logDir, logFile), O_RDWR|O_CREATE|O_APPEND, 0666)`.
Returns the result and the trace of attempted OS calls. -/
def createFile (fs : FS) (basePath logName : List Char) (level : Level) (slot : Int)
    (t : GoTime) : Except String Nat × List IOEv :=
  let logDir := logDirOf basePath logName t
  match fs.mkdirRes logDir with
  | some e => (.error ("logtool: cannot create log: " ++ e), [.mkdirAll logDir])
  | none =>
    let fname := goJoin logDir (logFileOf level slot t)
    match fs.openRes fname with
    | .error e =>
        (.error ("logtool: cannot open log file: " ++ e), [.mkdirAll logDir, .openFile fname])
    | .ok f => (.ok f, [.mkdirAll logDir, .openFile fname])

/-! ## Per-level stream (`bufferWriter`) -/

/-- A Go `bufio.Writer` handle: the wrapped file and its buffer capacity. -/
structure BufWriter where
  fileId : Nat
  size : Nat
deriving DecidableEq

/-- Go `bufferWriter`; `writer` is the embedded `*bufio.Writer` (Go nil ↦ `none`).
`file` keeps pointing at the old (already closed) handle after a failed rotation,
exactly as the Go field does. -/
structure BufferWriter where
  writer : Option BufWriter
  basePath : List Char
  logName : List Char
  file : Option Nat
  level : Level
  stime : GoTime
  slot : Int
  nbytes : Nat
deriving DecidableEq

/-- The zero-value `bufferWriter` literal built lazily by `fileLogWriter.write`. -/
def freshWriter (basePath logName : List Char) (level : Level) : BufferWriter :=
  { writer := none, basePath := basePath, logName := logName, file := none,
    level := level, stime := GoTime.zero, slot := 0, nbytes := 0 }

/-- Go `bufferWriter.rotateFile`: flush and close the current file if any,
then `createFile`; only on success are `file`, `nbytes`, `stime`, `slot` updated
and a fresh `bufio.NewWriterSize(file, bufferSize)` installed. -/
def rotateFile (fs : FS) (sb : BufferWriter) (now : GoTime) (slot : Int) :
    BufferWriter × Option String × List IOEv :=
  let closeEvs : List IOEv := match sb.file with
    | some f => [.flushW f, .closeF f]
    | none => []
  match createFile fs sb.basePath sb.logName sb.level slot now with
  | (.error e, evs) => (sb, some e, closeEvs ++ evs)
  | (.ok f, evs) =>
    ({ sb with file := some f, nbytes := 0, stime := now, slot := slot,
               writer := some ⟨f, bufferSize⟩ },
     none, closeEvs ++ evs)

/-- Go `bufferWriter.checkRotate`. -/
def checkRotate (fs : FS) (sb : BufferWriter) (now : GoTime) :
    BufferWriter × Option String × List IOEv :=
  match sb.file with
  | none => rotateFile fs sb now 0
  | some _ =>
    if now.year ≠ sb.stime.year ∨ now.month ≠ sb.stime.month ∨ now.day ≠ sb.stime.day then
      rotateFile fs sb now 0
    else if now.hour ≠ sb.stime.hour then
      rotateFile fs sb now 0
    else if sb.nbytes ≥ MaxSize then
      rotateFile fs sb now (sb.slot + 1)
    else (sb, none, [])

/-! ## The multiplexed writer (`fileLogWriter.write`, `flushAll`, `exit`) -/

/-- Go runtime panics the write path can hit. -/
inductive GoPanic where
  | indexOutOfRange
  | emptyBuffer
  | nilPointer
deriving DecidableEq

/-- Line assembly at the top of `fileLogWriter.write`: the timestamp
(`now.Format("2006-01-02 15:04:05.999 ")`, here the parameter `ts`) is written
only when `level != LevelAction`, then `GetPrefix(4)` (parameter `pre`), then
the message. -/
def lineContent (level : Level) (ts pre s : String) : List Char :=
  (if level ≠ LevelAction then ts.toList else []) ++ pre.toList ++ s.toList

/-- Go `if buf.Bytes()[buf.Len()-1] != '\n' { buf.WriteByte('\n') }`;
`none` models the index-out-of-range panic on an empty buffer. -/
def ensureNL (l : List Char) : Option (List Char) :=
  match l.getLast? with
  | none => none
  | some c => some (if c ≠ '\n' then l ++ ['\n'] else l)

/-- The `writer == nil` lazy-creation step of `fileLogWriter.write`. -/
def streamAt (basePath logName : List Char) (level : Level) :
    Option BufferWriter → BufferWriter
  | some sb => sb
  | none => freshWriter basePath logName level

/-- Result of one `write` call: the updated `writers` array, the trace, and
whether the record reached the stream. -/
structure WriteResult where
  writers : List (Option BufferWriter)
  events : List IOEv
  wrote : Bool
deriving DecidableEq

/-- Go `fileLogWriter.write`: assemble the line, index `w.writers[level]`
(a 6-element array: out-of-range bytes panic), create the stream lazily,
`checkRotate`, on error print to the console and drop the record, otherwise
submit the line to the buffered writer and count its bytes (`uint64`). -/
def write (fs : FS) (basePath logName : List Char) (writers : List (Option BufferWriter))
    (level : Level) (ts pre s : String) (now : GoTime) : Except GoPanic WriteResult :=
  match ensureNL (lineContent level ts pre s) with
  | none => .error .emptyBuffer
  | some line =>
    match writers[level]? with
    | none => .error .indexOutOfRange
    | some slotv =>
      let sb := streamAt basePath logName level slotv
      match checkRotate fs sb now with
      | (sb1, some e, evs) =>
        .ok ⟨writers.set level (some sb1),
             evs ++ [.println ("[logtool] check rotate err: " ++ e)], false⟩
      | (sb1, none, evs) =>
        match sb1.writer with
        | none => .error .nilPointer
        | some bw =>
          let sb2 := { sb1 with nbytes := (sb1.nbytes + line.length) % 2 ^ 64 }
          .ok ⟨writers.set level (some sb2), evs ++ [.writeB bw.fileId line], true⟩

/-- Go `fileLogWriter.flushAll`: for each non-nil stream whose `Writer` is
non-nil, call `Flush()` then `Sync()`; both error results are discarded.
Returns the trace and the list of errors that were returned and ignored. -/
def flushAll (fs : FS) : List (Option BufferWriter) → Except GoPanic (List IOEv × List String)
  | [] => .ok ([], [])
  | none :: rest => flushAll fs rest
  | some sb :: rest =>
    match sb.writer with
    | none => flushAll fs rest
    | some bw =>
      match sb.file with
      | none => .error .nilPointer
      | some f =>
        match flushAll fs rest with
        | .error p => .error p
        | .ok (evs, errs) =>
          .ok (IOEv.flushW bw.fileId :: IOEv.syncF f :: evs,
               ((fs.flushRes bw.fileId).toList ++ (fs.syncRes f).toList) ++ errs)

/-- Go `fileLogWriter.exit`: calls `flushAll`. -/
def exitFn (fs : FS) (writers : List (Option BufferWriter)) :
    Except GoPanic (List IOEv × List String) := flushAll fs writers

/-! ## Configuration (`SetName`, `SetLevel`, `Level.Set`) -/

/-- Go `SetName`: `panic("invalid log name")` on the empty string, modelled
as `.error`; otherwise the name is stored. -/
def SetName (name : String) : Except String String :=
  if name = "" then .error "invalid log name" else .ok name

/-- Go `SetLevel`: `panic("invalid log level")` when
`level < LevelDebug || level > LevelError`; otherwise the level is stored. -/
def SetLevel (level : Level) : Except String Level :=
  if level < LevelDebug ∨ level > LevelError then .error "invalid log level" else .ok level

/-- The `for k, v := range levelName` loop of Go `Level.Set`. -/
def levelSetAux (s : String) : Nat → List String → Option Level
  | _, [] => none
  | k, v :: rest => if k ≠ levelDefault ∧ v = s then some k else levelSetAux s (k + 1) rest

/-- Go `Level.Set`: accept a level name other than the reserved default one;
`none` models the `errors.New("invaild level")` return. -/
def levelSet (s : String) : Option Level := levelSetAux s 0 levelName

/-! ## Spec-side definitions (for refinement claims) -/

/-- The rotation decision exactly as the spec states it (§4.2 steps 1–4):
no file → slot 0; date or hour differs from `openedAt` → slot 0;
size overflow → `slot+1`; otherwise keep the current file. -/
inductive RotDecision where
  | rotate (slot : Int)
  | keep
deriving DecidableEq

/-- Modelled from the spec text of §4.2 (this is the claim's wording, to be
compared with `checkRotate`, which is translated from the source). -/
def rotateDecisionSpec (sb : BufferWriter) (now : GoTime) : RotDecision :=
  if sb.file = none then .rotate 0
  else if ¬ sameDateHour now sb.stime then .rotate 0
  else if sb.nbytes ≥ MaxSize then .rotate (sb.slot + 1)
  else .keep

/-! ## Basic lemmas about rotation -/

/-- A failed rotation leaves every field of the stream record unchanged
(the underlying old file was closed, but the record still points at it). -/
theorem rotateFile_error_state {fs : FS} {sb : BufferWriter} {now : GoTime} {slot : Int}
    {sb1 : BufferWriter} {e : String} {evs : List IOEv}
    (h : rotateFile fs sb now slot = (sb1, some e, evs)) : sb1 = sb := by
  unfold rotateFile at h
  rcases hc : createFile fs sb.basePath sb.logName sb.level slot now with ⟨r, cevs⟩
  rw [hc] at h
  cases r with
  | error e2 => simp only at h; exact (congrArg Prod.fst h).symm
  | ok f => simp only at h; exact absurd (congrArg (fun p => p.2.1) h) (by simp)

/-- A failed `checkRotate` leaves the stream record unchanged. -/
theorem checkRotate_error_state {fs : FS} {sb : BufferWriter} {now : GoTime}
    {sb1 : BufferWriter} {e : String} {evs : List IOEv}
    (h : checkRotate fs sb now = (sb1, some e, evs)) : sb1 = sb := by
  unfold checkRotate at h
  cases hf : sb.file with
  | none => rw [hf] at h; exact rotateFile_error_state h
  | some f =>
    rw [hf] at h
    split_ifs at h <;>
      first
        | exact rotateFile_error_state h
        | exact absurd (congrArg (fun p => p.2.1) h) (by simp)

/-- A failed `checkRotate` means one of the three rotation triggers held. -/
theorem checkRotate_error_trigger {fs : FS} {sb : BufferWriter} {now : GoTime}
    {sb1 : BufferWriter} {e : String} {evs : List IOEv}
    (h : checkRotate fs sb now = (sb1, some e, evs)) :
    sb.file = none ∨ ¬ sameDateHour now sb.stime ∨ MaxSize ≤ sb.nbytes := by
  by_contra hcon
  push_neg at hcon
  obtain ⟨hfile, hsame, hsize⟩ := hcon
  obtain ⟨h1, h2, h3, h4⟩ := hsame
  cases hf : sb.file with
  | none => exact hfile hf
  | some f =>
    unfold checkRotate at h
    rw [hf] at h
    rw [if_neg (by omega), if_neg (by omega), if_neg (by omega)] at h
    exact absurd (congrArg (fun p => p.2.1) h) (by simp)

/-- When a rotation trigger holds, `checkRotate` performs a rotation. -/
theorem checkRotate_rotates {sb : BufferWriter} {now : GoTime}
    (h : sb.file = none ∨ ¬ sameDateHour now sb.stime ∨ MaxSize ≤ sb.nbytes) (fs : FS) :
    ∃ k, checkRotate fs sb now = rotateFile fs sb now k := by
  cases hf : sb.file with
  | none => exact ⟨0, by unfold checkRotate; rw [hf]⟩
  | some f =>
    unfold checkRotate
    rw [hf]
    by_cases hd : now.year ≠ sb.stime.year ∨ now.month ≠ sb.stime.month ∨ now.day ≠ sb.stime.day
    · exact ⟨0, by rw [if_pos hd]⟩
    · push_neg at hd
      obtain ⟨h1, h2, h3⟩ := hd
      rw [if_neg (by omega)]
      by_cases hh : now.hour ≠ sb.stime.hour
      · exact ⟨0, by rw [if_pos hh]⟩
      · push_neg at hh
        rw [if_neg (by omega)]
        have hsz : MaxSize ≤ sb.nbytes := by
          rcases h with h | h | h
          · exact absurd h (by rw [hf]; simp)
          · exact absurd ⟨h1, h2, h3, hh⟩ h
          · exact h
        exact ⟨sb.slot + 1, by rw [if_pos hsz]⟩

/-! ## Claim theorems -/

/-- C1: `checkRotate(now)` follows exactly the spec's case order: no open file
→ rotate to slot 0 at `now`; differing calendar date or hour from `openedAt`
→ rotate to slot 0 at `now` (hour rotation before the size check); byte count
at least `MaxSize` → rotate to `slot+1` at `now`; otherwise no rotation and
the stream state is unchanged. -/
theorem checkRotate_follows_spec_decision (fs : FS) (sb : BufferWriter) (now : GoTime) :
    checkRotate fs sb now =
      match rotateDecisionSpec sb now with
      | .rotate k => rotateFile fs sb now k
      | .keep => (sb, none, []) := by
  cases hf : sb.file with
  | none =>
    unfold checkRotate rotateDecisionSpec
    rw [hf]
    simp
  | some f =>
    unfold checkRotate rotateDecisionSpec
    rw [hf]
    simp only
    rw [if_neg (Option.some_ne_none f)]
    by_cases hs : sameDateHour now sb.stime
    · obtain ⟨h1, h2, h3, h4⟩ := hs
      rw [if_neg (show ¬(now.year ≠ sb.stime.year ∨ now.month ≠ sb.stime.month ∨
            now.day ≠ sb.stime.day) by omega),
          if_neg (show ¬now.hour ≠ sb.stime.hour by omega),
          if_neg (not_not_intro (⟨h1, h2, h3, h4⟩ : sameDateHour now sb.stime))]
      by_cases hn : sb.nbytes ≥ MaxSize
      · rw [if_pos hn, if_pos hn]
      · rw [if_neg hn, if_neg hn]
    · rw [if_pos hs]
      by_cases hd : now.year ≠ sb.stime.year ∨ now.month ≠ sb.stime.month ∨
          now.day ≠ sb.stime.day
      · rw [if_pos hd]
      · push_neg at hd
        obtain ⟨h1, h2, h3⟩ := hd
        have hh : now.hour ≠ sb.stime.hour := by
          intro h4; exact hs ⟨h1, h2, h3, h4⟩
        rw [if_neg (show ¬(now.year ≠ sb.stime.year ∨ now.month ≠ sb.stime.month ∨
              now.day ≠ sb.stime.day) by omega),
            if_pos hh]

/-- `createFile` only attempts directory creation and file opening: it never
writes record bytes. -/
theorem createFile_no_writeB (fs : FS) (basePath logName : List Char) (level : Level)
    (slot : Int) (t : GoTime) (fid : Nat) (bs : List Char) :
    IOEv.writeB fid bs ∉ (createFile fs basePath logName level slot t).2 := by
  unfold createFile
  cases hm : fs.mkdirRes (logDirOf basePath logName t) with
  | some e => simp [hm]
  | none =>
    cases ho : fs.openRes (goJoin (logDirOf basePath logName t) (logFileOf level slot t)) with
    | error e => simp [hm, ho]
    | ok f => simp [hm, ho]

/-- C2: when rotation is needed and directory creation or file open fails,
`write` drops the record (`wrote = false`), reports the failure on the fallback
console channel, returns normally (no panic), and at any later time in the same
date/hour the next `checkRotate` attempts the rotation (and hence the file
creation) again instead of keeping the stale stream. -/
theorem write_rotate_failure_drops_reports_and_retries
    (fs fs2 : FS) (basePath logName : List Char) (writers : List (Option BufferWriter))
    (level : Level) (ts pre s : String) (now now2 : GoTime)
    (line : List Char) (slotv : Option BufferWriter) (sb1 : BufferWriter)
    (e : String) (evs : List IOEv)
    (hline : ensureNL (lineContent level ts pre s) = some line)
    (hidx : writers[level]? = some slotv)
    (hrot : checkRotate fs (streamAt basePath logName level slotv) now = (sb1, some e, evs))
    (hsame : sameDateHour now2 now) :
    write fs basePath logName writers level ts pre s now =
      .ok ⟨writers.set level (some sb1),
           evs ++ [.println ("[logtool] check rotate err: " ++ e)], false⟩
    ∧ ∃ k, checkRotate fs2 sb1 now2 = rotateFile fs2 sb1 now2 k := by
  constructor
  · unfold write
    rw [hline, hidx]
    simp only [hrot]
  · have hsb : sb1 = streamAt basePath logName level slotv := checkRotate_error_state hrot
    have htr := checkRotate_error_trigger hrot
    rw [hsb]
    apply checkRotate_rotates
    obtain ⟨e1, e2, e3, e4⟩ := hsame
    rcases htr with h | h | h
    · exact Or.inl h
    · refine Or.inr (Or.inl ?_)
      intro hcon
      obtain ⟨c1, c2, c3, c4⟩ := hcon
      exact h ⟨by omega, by omega, by omega, by omega⟩
    · exact Or.inr (Or.inr h)

/-- A filesystem oracle on which every operation fails. -/
def fsFail : FS :=
  ⟨fun _ => some "denied", fun _ => Except.error "denied",
   fun _ => some "io error", fun _ => some "io error"⟩

/-- A filesystem oracle on which every operation succeeds (opens hand out file id 7). -/
def fsOK : FS := ⟨fun _ => none, fun _ => Except.ok 7, fun _ => none, fun _ => none⟩

def bp0 : List Char := "/data".toList
def ln0 : List Char := "app".toList
def ts0 : String := "2026-10-11 07:00:00.123 "
def pre0 : String := "reqid-1 main.go 10 : "
def now0 : GoTime := ⟨2026, 10, 11, 7⟩
def writers0 : List (Option BufferWriter) := List.replicate 6 none

theorem write_rotate_failure_witness :
    sameDateHour now0 now0
    ∧ write fsFail bp0 ln0 writers0 LevelInfo ts0 pre0 "hello" now0 =
        .ok ⟨writers0.set LevelInfo (some (freshWriter bp0 ln0 LevelInfo)),
             [IOEv.mkdirAll (logDirOf bp0 ln0 now0),
              IOEv.println "[logtool] check rotate err: logtool: cannot create log: denied"],
             false⟩
    ∧ ∃ k, checkRotate fsFail (freshWriter bp0 ln0 LevelInfo) now0 =
        rotateFile fsFail (freshWriter bp0 ln0 LevelInfo) now0 k := by
  have h := write_rotate_failure_drops_reports_and_retries fsFail fsFail bp0 ln0 writers0
    LevelInfo ts0 pre0 "hello" now0 now0
    ((ts0 ++ pre0 ++ "hello").toList ++ ['\n']) none (freshWriter bp0 ln0 LevelInfo)
    "logtool: cannot create log: denied" [IOEv.mkdirAll (logDirOf bp0 ln0 now0)]
    (by decide) (by decide) (by decide) ⟨rfl, rfl, rfl, rfl⟩
  exact ⟨⟨rfl, rfl, rfl, rfl⟩, h.1, h.2⟩

/-- C3: rotating a stream that has an open file first flushes and closes it —
the trace begins with the flush and close of the old file, and rotation itself
never writes record bytes, so nothing reaches the new file before the old one
is flushed and closed — and on a successful open the state becomes: new file
installed, `nbytes = 0`, `stime = now`, `slot` as chosen, and a fresh buffered
writer of the fixed `bufferSize = 256 KiB` capacity wrapping the new file. -/
theorem rotateFile_flush_close_before_open
    (fs : FS) (sb : BufferWriter) (now : GoTime) (slot : Int) (f : Nat)
    (hf : sb.file = some f) :
    (∃ evs, (rotateFile fs sb now slot).2.2 = IOEv.flushW f :: IOEv.closeF f :: evs)
    ∧ (∀ fid bs, IOEv.writeB fid bs ∉ (rotateFile fs sb now slot).2.2)
    ∧ bufferSize = 256 * 1024
    ∧ (∀ g, (createFile fs sb.basePath sb.logName sb.level slot now).1 = Except.ok g →
        (rotateFile fs sb now slot).1 =
          { sb with file := some g, nbytes := 0, stime := now, slot := slot,
                    writer := some ⟨g, bufferSize⟩ }) := by
  rcases hc : createFile fs sb.basePath sb.logName sb.level slot now with ⟨r, cevs⟩
  have hnw := createFile_no_writeB fs sb.basePath sb.logName sb.level slot now
  rw [hc] at hnw
  cases r with
  | error e =>
    refine ⟨⟨cevs, ?_⟩, ?_, rfl, ?_⟩
    · unfold rotateFile
      rw [hf, hc]
      rfl
    · intro fid bs hmem
      unfold rotateFile at hmem
      rw [hf, hc] at hmem
      simp only [List.cons_append, List.nil_append, List.mem_cons] at hmem
      rcases hmem with h | h | h
      · exact IOEv.noConfusion h
      · exact IOEv.noConfusion h
      · exact hnw fid bs h
    · intro g hg
      exact absurd hg (by simp)
  | ok f2 =>
    refine ⟨⟨cevs, ?_⟩, ?_, rfl, ?_⟩
    · unfold rotateFile
      rw [hf, hc]
      rfl
    · intro fid bs hmem
      unfold rotateFile at hmem
      rw [hf, hc] at hmem
      simp only [List.cons_append, List.nil_append, List.mem_cons] at hmem
      rcases hmem with h | h | h
      · exact IOEv.noConfusion h
      · exact IOEv.noConfusion h
      · exact hnw fid bs h
    · intro g hg
      have : f2 = g := by simpa using hg
      subst this
      unfold rotateFile
      rw [hf, hc]

/-- A stream whose file 3 is open (as after a successful earlier rotation). -/
def sbOpen : BufferWriter :=
  { writer := some ⟨3, bufferSize⟩, basePath := bp0, logName := ln0,
    file := some 3, level := LevelInfo, stime := ⟨2026, 10, 11, 6⟩, slot := 0, nbytes := 100 }

theorem rotateFile_flush_close_witness :
    sbOpen.file = some 3
    ∧ (∃ evs, (rotateFile fsOK sbOpen now0 0).2.2 = IOEv.flushW 3 :: IOEv.closeF 3 :: evs)
    ∧ (∀ g, (createFile fsOK sbOpen.basePath sbOpen.logName sbOpen.level 0 now0).1 =
          Except.ok g →
        (rotateFile fsOK sbOpen now0 0).1 =
          { sbOpen with file := some g, nbytes := 0, stime := now0, slot := 0,
                        writer := some ⟨g, bufferSize⟩ }) := by
  have h := rotateFile_flush_close_before_open fsOK sbOpen now0 0 3 rfl
  exact ⟨rfl, h.1, h.2.2.2⟩

/-- The C5 claim's phrasing: the line ends in exactly one trailing newline. -/
abbrev endsInExactlyOneNL (l : List Char) : Prop :=
  l.getLast? = some '\n' ∧ l.dropLast.getLast? ≠ some '\n'

/-- C5 counterexample: for the message `"x\n\n"` the line submitted to the
stream ends in two trailing newlines, refuting "ends in exactly one trailing
newline"; the code only guarantees at least one. -/
theorem line_two_trailing_newlines_cex :
    ensureNL (lineContent LevelInfo ts0 pre0 "x\n\n") =
      some (ts0.toList ++ pre0.toList ++ "x\n\n".toList)
    ∧ ¬ endsInExactlyOneNL (ts0.toList ++ pre0.toList ++ "x\n\n".toList) := by
  exact ⟨by decide, by decide⟩

/-- C5 (amended): every line submitted to the stream ends in a trailing
newline: a message already ending in `'\n'` is passed through with no second
newline appended, and a message not ending in `'\n'` (including the empty
message) gets exactly one appended.  The hypothesis records that the caller
prefix produced by `GetPrefix` always ends in `' '`. -/
theorem write_line_newline_handling
    (level : Level) (ts pre s : String) (hpre : pre.toList.getLast? = some ' ') :
    ensureNL (lineContent level ts pre s) =
      some (if s.toList.getLast? = some '\n'
            then lineContent level ts pre s
            else lineContent level ts pre s ++ ['\n'])
    ∧ ∀ L, ensureNL (lineContent level ts pre s) = some L → L.getLast? = some '\n' := by
  have hpne : pre.toList ≠ [] := by
    intro h; rw [h] at hpre; simp at hpre
  have hlast : (lineContent level ts pre s).getLast? =
      (if s.toList = [] then some ' ' else s.toList.getLast?) := by
    unfold lineContent
    by_cases hs : s.toList = []
    · rw [if_pos hs, hs, List.append_nil]
      rw [List.getLast?_append_of_ne_nil _ hpne]
      exact hpre
    · rw [if_neg hs, List.getLast?_append_of_ne_nil _ hs]
  have hmain : ensureNL (lineContent level ts pre s) =
      some (if s.toList.getLast? = some '\n'
            then lineContent level ts pre s
            else lineContent level ts pre s ++ ['\n']) := by
    unfold ensureNL
    rw [hlast]
    by_cases hs : s.toList = []
    · rw [if_pos hs, hs]
      simp
    · rw [if_neg hs]
      rcases hc : s.toList.getLast? with _ | c
      · exact absurd (List.getLast?_eq_none_iff.mp hc) hs
      · simp only
        by_cases hnl : c = '\n'
        · subst hnl
          simp
        · rw [if_pos hnl, if_neg (by simpa using hnl)]
  refine ⟨hmain, ?_⟩
  intro L hL
  rw [hmain] at hL
  have hLval := Option.some_injective _ hL
  by_cases hs : s.toList.getLast? = some '\n'
  · rw [if_pos hs] at hLval
    rw [← hLval, hlast, if_neg (by intro h; rw [h] at hs; simp at hs)]
    exact hs
  · rw [if_neg hs] at hLval
    rw [← hLval]
    exact List.getLast?_concat _

theorem write_line_newline_witness :
    pre0.toList.getLast? = some ' '
    ∧ ensureNL (lineContent LevelInfo ts0 pre0 "hi") =
        some (lineContent LevelInfo ts0 pre0 "hi" ++ ['\n'])
    ∧ ensureNL (lineContent LevelInfo ts0 pre0 "hi\n") =
        some (lineContent LevelInfo ts0 pre0 "hi\n") := by
  refine ⟨by decide, ?_, ?_⟩
  · have h := (write_line_newline_handling LevelInfo ts0 pre0 "hi" (by decide)).1
    rw [h]
    decide
  · have h := (write_line_newline_handling LevelInfo ts0 pre0 "hi\n" (by decide)).1
    rw [h]
    decide

/-- C6: the line assembled by `write` begins with the formatted timestamp iff
the level is not the structured-event level: `LevelAction` never gets the
timestamp, every other level always does.  The hypotheses record what holds of
the real collaborators: the rendering of `now.Format("2006-01-02 ...")` starts
with a digit, and the `GetPrefix` output starts with a non-digit (`'r'` of
`"reqid-"`). -/
theorem line_starts_with_timestamp_iff_not_action
    (level : Level) (ts pre s : String) (L : List Char) (c d : Char)
    (htsh : ts.toList.head? = some c) (hcdig : c.isDigit = true)
    (hpreh : pre.toList.head? = some d) (hddig : d.isDigit = false)
    (hL : ensureNL (lineContent level ts pre s) = some L) :
    (ts.toList <+: L) ↔ level ≠ LevelAction := by
  have htne : ts.toList ≠ [] := by
    intro h; rw [h] at htsh; simp at htsh
  have hpne : pre.toList ≠ [] := by
    intro h; rw [h] at hpreh; simp at hpreh
  have hlp : lineContent level ts pre s <+: L := by
    unfold ensureNL at hL
    rcases hg : (lineContent level ts pre s).getLast? with _ | e
    · rw [hg] at hL; simp at hL
    · rw [hg] at hL
      simp only [Option.some_inj] at hL
      by_cases hnl : e = '\n'
      · rw [← hL, if_neg (by simpa using hnl)]
      · rw [← hL, if_pos hnl]
        exact List.prefix_append _ _
  constructor
  · intro hts hact
    have hline : lineContent level ts pre s = pre.toList ++ s.toList := by
      unfold lineContent
      rw [if_neg (by simpa using hact)]
      simp
    have hLhead : L.head? = some d := by
      obtain ⟨t, ht⟩ := hlp
      rw [← ht, hline, List.append_assoc,
          List.head?_append_of_ne_nil _ hpne]
      exact hpreh
    have hLhead2 : L.head? = some c := by
      obtain ⟨t, ht⟩ := hts
      rw [← ht, List.head?_append_of_ne_nil _ htne]
      exact htsh
    rw [hLhead] at hLhead2
    have : d = c := by simpa using hLhead2
    rw [this, hcdig] at hddig
    exact Bool.noConfusion hddig
  · intro hact
    have hline : lineContent level ts pre s =
        ts.toList ++ (pre.toList ++ s.toList) := by
      unfold lineContent
      rw [if_pos hact, List.append_assoc]
    exact (hline ▸ List.prefix_append _ _ : ts.toList <+: lineContent level ts pre s).trans hlp

theorem line_timestamp_witness :
    (ts0.toList.head? = some '2')
    ∧ (ensureNL (lineContent LevelDebug ts0 pre0 "hi") =
        some (lineContent LevelDebug ts0 pre0 "hi" ++ ['\n']))
    ∧ ((ts0.toList <+: lineContent LevelDebug ts0 pre0 "hi" ++ ['\n']) ↔
        LevelDebug ≠ LevelAction) := by
  refine ⟨by decide, by decide, ?_⟩
  exact line_starts_with_timestamp_iff_not_action LevelDebug ts0 pre0 "hi"
    (lineContent LevelDebug ts0 pre0 "hi" ++ ['\n']) '2' 'r'
    (by decide) (by decide) (by decide) (by decide) (by decide)

/-- C8 counterexample: `putBuffer` tests `Len()` (current content length),
not the capacity: a buffer holding 3 bytes but with capacity 1024 IS returned
to the pool, so the pool can retain a buffer of capacity 256 or more. -/
theorem putBuffer_retains_large_capacity_cex :
    putBuffer ⟨[1, 2, 3], 1024⟩ [] = [⟨[1, 2, 3], 1024⟩]
    ∧ 256 ≤ (⟨[1, 2, 3], 1024⟩ : GoBuffer).capacity := by
  exact ⟨by decide, by decide⟩

/-- C8 (amended): `getBuffer` returns a ready-to-use empty buffer — the
recycled free-list head observably `Reset()`, or a freshly allocated one when
the pool is empty — and `putBuffer` returns the buffer to the pool only if
its current content LENGTH is below 256 bytes (the capacity is not examined),
discarding it otherwise, so the pool never gains a buffer whose content
length at release time is 256 bytes or more. -/
theorem bufferPool_acquire_release (freeList : List GoBuffer) (b : GoBuffer) :
    ((getBuffer freeList).1.data = []
      ∧ (freeList = [] → getBuffer freeList = (⟨[], 0⟩, []))
      ∧ (∀ b0 rest, freeList = b0 :: rest → getBuffer freeList = (b0.reset, rest)))
    ∧ (b.len < 256 → putBuffer b freeList = b :: freeList)
    ∧ (256 ≤ b.len → putBuffer b freeList = freeList)
    ∧ (∀ b2 ∈ putBuffer b freeList, b2 ∈ freeList ∨ b2.len < 256) := by
  refine ⟨?_, ?_, ?_, ?_⟩
  · cases freeList with
    | nil => exact ⟨rfl, fun _ => rfl, fun b0 rest h => List.noConfusion h⟩
    | cons b0 rest =>
      refine ⟨rfl, fun h => List.noConfusion h, ?_⟩
      intro b1 rest1 h
      injection h with h1 h2
      subst h1
      subst h2
      rfl
  · intro h
    unfold putBuffer
    rw [if_neg (by omega)]
  · intro h
    unfold putBuffer
    rw [if_pos h]
  · intro b2 hmem
    unfold putBuffer at hmem
    by_cases h : b.len ≥ 256
    · rw [if_pos h] at hmem
      exact Or.inl hmem
    · rw [if_neg h] at hmem
      rcases List.mem_cons.mp hmem with h2 | h2
      · exact Or.inr (by rw [h2]; omega)
      · exact Or.inl h2

theorem bufferPool_witness :
    (getBuffer [(⟨[1, 2], 300⟩ : GoBuffer)]).1.data = []
    ∧ putBuffer ⟨[1], 10⟩ [] = [⟨[1], 10⟩]
    ∧ putBuffer ⟨List.replicate 300 7, 300⟩ [] = [] := by
  have h1 := bufferPool_acquire_release [(⟨[1, 2], 300⟩ : GoBuffer)] ⟨[1], 10⟩
  have h1b := bufferPool_acquire_release ([] : List GoBuffer) ⟨[1], 10⟩
  have h2 := bufferPool_acquire_release ([] : List GoBuffer) ⟨List.replicate 300 7, 300⟩
  refine ⟨h1.1.1, h1b.2.1 (by decide), h2.2.2.1 ?_⟩
  show 256 ≤ (List.replicate 300 7).length
  simp

/-! ## Write-path safety lemmas (used by the configuration and indexing claims) -/

/-- A stream is well-formed when its file handle and its buffered writer are
installed together; this holds for the fresh zero-value stream and is
preserved by rotation (a successful one installs both, a failed one changes
neither field). -/
abbrev WFStream (sb : BufferWriter) : Prop := sb.file.isSome ↔ sb.writer.isSome

/-- A successful rotation installs a buffered writer. -/
theorem rotateFile_ok_writer {fs : FS} {sb : BufferWriter} {now : GoTime} {slot : Int}
    {sb1 : BufferWriter} {evs : List IOEv}
    (h : rotateFile fs sb now slot = (sb1, none, evs)) : sb1.writer.isSome := by
  unfold rotateFile at h
  rcases hc : createFile fs sb.basePath sb.logName sb.level slot now with ⟨r, cevs⟩
  rw [hc] at h
  cases r with
  | error e =>
    simp only at h
    exact absurd (congrArg (fun p => p.2.1) h) (by simp)
  | ok f =>
    simp only at h
    injection h with h1 h2
    rw [← h1]
    rfl

/-- After a successful `checkRotate` on a well-formed stream, the buffered
writer is installed. -/
theorem checkRotate_ok_writer {fs : FS} {sb : BufferWriter} {now : GoTime}
    {sb1 : BufferWriter} {evs : List IOEv} (hwf : WFStream sb)
    (h : checkRotate fs sb now = (sb1, none, evs)) : sb1.writer.isSome := by
  unfold checkRotate at h
  cases hf : sb.file with
  | none => rw [hf] at h; exact rotateFile_ok_writer h
  | some f =>
    rw [hf] at h
    split_ifs at h
    · exact rotateFile_ok_writer h
    · exact rotateFile_ok_writer h
    · exact rotateFile_ok_writer h
    · have h1 : sb = sb1 := congrArg Prod.fst h
      rw [← h1]
      exact hwf.mp (by rw [hf]; rfl)

/-- The write path returns normally (no panic) for every in-range level,
nonempty assembled line, and well-formed state, whatever the configured
name and path strings and whatever the filesystem does. -/
theorem write_returns_ok (fs : FS) (basePath logName : List Char)
    (writers : List (Option BufferWriter)) (level : Level) (ts pre s : String)
    (now : GoTime) (hlev : level ≤ 5) (hlen : writers.length = 6)
    (hwf : ∀ sb, some sb ∈ writers → WFStream sb)
    (hne : lineContent level ts pre s ≠ []) :
    ∃ r, write fs basePath logName writers level ts pre s now = .ok r := by
  have hnl : ∃ line, ensureNL (lineContent level ts pre s) = some line := by
    unfold ensureNL
    rcases hg : (lineContent level ts pre s).getLast? with _ | c
    · exact absurd (List.getLast?_eq_none_iff.mp hg) hne
    · exact ⟨_, rfl⟩
  obtain ⟨line, hline⟩ := hnl
  have hlt : level < writers.length := by rw [hlen]; exact Nat.lt_succ_of_le hlev
  have hidx : writers[level]? = some writers[level] := List.getElem?_eq_getElem hlt
  have hwfsb : WFStream (streamAt basePath logName level writers[level]) := by
    cases hv : writers[level] with
    | none => simp [streamAt, freshWriter]
    | some sb =>
      have : some sb ∈ writers := List.getElem?_mem (by rw [hidx, hv])
      exact hwf sb this
  simp only [write, hline, hidx]
  rcases hr : checkRotate fs (streamAt basePath logName level writers[level]) now
    with ⟨sb1, err, evs⟩
  cases err with
  | some e => exact ⟨_, rfl⟩
  | none =>
    have hw := checkRotate_ok_writer hwfsb hr
    dsimp only
    rcases hbw : sb1.writer with _ | bw
    · rw [hbw] at hw; exact Bool.noConfusion hw
    · exact ⟨_, rfl⟩

/-- C9: invalid configuration is fatal at configuration time and only then:
`SetName` panics exactly on the empty name, `SetLevel` panics exactly outside
the Debug..Error range, `Level.Set` rejects malformed level strings and the
reserved default name `"output"` with an error while accepting and storing
the valid names; and no later write-path operation aborts the process for
these reasons — with an in-range level and a nonempty line, `write` returns
normally for every configured name and path. -/
theorem config_validation_fatal_only_at_config_time :
    (SetName "" = .error "invalid log name")
    ∧ (∀ n, n ≠ "" → SetName n = .ok n)
    ∧ (∀ l, SetLevel l = .error "invalid log level" ↔ (l < LevelDebug ∨ LevelError < l))
    ∧ (∀ l, LevelDebug ≤ l → l ≤ LevelError → SetLevel l = .ok l)
    ∧ (levelSet "output" = none)
    ∧ (levelSet "debug" = some LevelDebug ∧ levelSet "info" = some LevelInfo
        ∧ levelSet "warn" = some LevelWarn ∧ levelSet "error" = some LevelError
        ∧ levelSet "action" = some LevelAction)
    ∧ (∀ s, s ∉ ["debug", "info", "warn", "error", "action"] → levelSet s = none)
    ∧ (∀ (fs : FS) (basePath logName : List Char) (writers : List (Option BufferWriter))
        (level : Level) (ts pre s : String) (now : GoTime),
        level ≤ 5 → writers.length = 6 → (∀ sb, some sb ∈ writers → WFStream sb) →
        lineContent level ts pre s ≠ [] →
        ∃ r, write fs basePath logName writers level ts pre s now = .ok r) := by
  refine ⟨rfl, ?_, ?_, ?_, rfl, ⟨rfl, rfl, rfl, rfl, rfl⟩, ?_, ?_⟩
  · intro n hn
    unfold SetName
    rw [if_neg hn]
  · intro l
    by_cases hc : l < LevelDebug ∨ l > LevelError
    · constructor
      · intro _
        exact hc
      · intro _
        unfold SetLevel
        rw [if_pos hc]
    · constructor
      · intro h
        unfold SetLevel at h
        rw [if_neg hc] at h
        exact Except.noConfusion h
      · intro h
        exact absurd h hc
  · intro l h1 h2
    unfold SetLevel
    rw [if_neg (by
      intro h
      rcases h with h | h
      · exact Nat.lt_irrefl l (Nat.lt_of_lt_of_le h h1)
      · exact Nat.lt_irrefl l (Nat.lt_of_le_of_lt h2 h))]
  · intro s hs
    unfold levelSet levelName levelSetAux
    rw [if_neg (by simp [levelDefault])]
    unfold levelSetAux
    have h1 : s ≠ "debug" := by intro h; exact hs (by rw [h]; simp)
    have h2 : s ≠ "info" := by intro h; exact hs (by rw [h]; simp)
    have h3 : s ≠ "warn" := by intro h; exact hs (by rw [h]; simp)
    have h4 : s ≠ "error" := by intro h; exact hs (by rw [h]; simp)
    have h5 : s ≠ "action" := by intro h; exact hs (by rw [h]; simp)
    rw [if_neg (by intro h; exact h1 h.2.symm)]
    unfold levelSetAux
    rw [if_neg (by intro h; exact h2 h.2.symm)]
    unfold levelSetAux
    rw [if_neg (by intro h; exact h3 h.2.symm)]
    unfold levelSetAux
    rw [if_neg (by intro h; exact h4 h.2.symm)]
    unfold levelSetAux
    rw [if_neg (by intro h; exact h5 h.2.symm)]
    rfl
  · intro fs basePath logName writers level ts pre s now h1 h2 h3 h4
    exact write_returns_ok fs basePath logName writers level ts pre s now h1 h2 h3 h4

theorem config_validation_witness :
    SetName "" = .error "invalid log name"
    ∧ SetName "app" = .ok "app"
    ∧ SetLevel LevelAction = .error "invalid log level"
    ∧ SetLevel LevelWarn = .ok LevelWarn
    ∧ levelSet "output" = none
    ∧ levelSet "bogus" = none
    ∧ ∃ r, write fsOK bp0 ln0 writers0 LevelWarn ts0 pre0 "x" now0 = .ok r := by
  obtain ⟨c1, c2, c3, c4, c5, c6, c7, c8⟩ := config_validation_fatal_only_at_config_time
  refine ⟨c1, c2 "app" (by decide), (c3 LevelAction).mpr (by decide),
          c4 LevelWarn (by decide) (by decide), c5, c7 "bogus" (by decide), ?_⟩
  refine c8 fsOK bp0 ln0 writers0 LevelWarn ts0 pre0 "x" now0 (by decide) (by decide) ?_
    (by decide)
  intro sb hmem
  simp [writers0] at hmem

/-- C10: with the six-element `writers` array, the `w.writers[level]` lookup
and lazy stream creation in `write` is in bounds for every level value 0–5 and
`write` never hits the index panic there; for any larger level byte the lookup
is out of bounds and `write` panics, so `level ≤ 5` is exactly the precondition
that makes the indexing safe. -/
theorem write_array_index_safety (fs : FS) (basePath logName : List Char)
    (writers : List (Option BufferWriter)) (level : Level) (ts pre s : String)
    (now : GoTime) (line : List Char) (hlen : writers.length = 6)
    (hline : ensureNL (lineContent level ts pre s) = some line) :
    (level ≤ 5 → (writers[level]?).isSome = true
      ∧ write fs basePath logName writers level ts pre s now ≠ .error .indexOutOfRange)
    ∧ (5 < level →
        write fs basePath logName writers level ts pre s now = .error .indexOutOfRange) := by
  constructor
  · intro hlev
    have hlt : level < writers.length := by rw [hlen]; exact Nat.lt_succ_of_le hlev
    have hidx : writers[level]? = some writers[level] := List.getElem?_eq_getElem hlt
    refine ⟨by rw [hidx]; rfl, ?_⟩
    simp only [write, hline, hidx]
    rcases hr : checkRotate fs (streamAt basePath logName level writers[level]) now
      with ⟨sb1, err, evs⟩
    cases err with
    | some e => intro h; exact Except.noConfusion h
    | none =>
      dsimp only
      rcases hbw : sb1.writer with _ | bw
      · intro h
        simp at h
      · intro h; exact Except.noConfusion h
  · intro hlev
    have hidx : writers[level]? = none := List.getElem?_eq_none (by rw [hlen]; exact hlev)
    simp only [write, hline, hidx]

theorem write_array_index_witness :
    (writers0[LevelWarn]?).isSome = true
    ∧ write fsFail bp0 ln0 writers0 9 ts0 pre0 "x" now0 = .error .indexOutOfRange := by
  have h1 := write_array_index_safety fsFail bp0 ln0 writers0 LevelWarn ts0 pre0 "x" now0
    ((ts0 ++ pre0 ++ "x").toList ++ ['\n']) (by decide) (by decide)
  have h2 := write_array_index_safety fsFail bp0 ln0 writers0 9 ts0 pre0 "x" now0
    ((ts0 ++ pre0 ++ "x").toList ++ ['\n']) (by decide) (by decide)
  exact ⟨(h1.1 (by decide)).1, h2.2 (by decide)⟩

/-- A filesystem oracle whose `Flush()` calls report "disk full". -/
def fsFlushFail : FS :=
  ⟨fun _ => none, fun _ => Except.ok 7, fun _ => some "disk full", fun _ => none⟩

/-- C7 counterexample: a flush failure is NOT reported to the fallback console
channel: `flushAll` discards the error values returned by `Flush()`/`Sync()`,
and its trace contains no console print — the ignored-error list is nonempty
while the console output is empty. -/
theorem flushAll_failure_unreported_cex :
    flushAll fsFlushFail [some sbOpen, none, none, none, none, none] =
      .ok ([IOEv.flushW 3, IOEv.syncF 3], ["disk full"])
    ∧ consoleOf [IOEv.flushW 3, IOEv.syncF 3] = []
    ∧ ("disk full" :: ([] : List String)) ≠ [] := by
  exact ⟨rfl, rfl, by decide⟩

/-- C7 (amended): `flushAll` — and `exit`, which just calls it — flushes and
syncs every opened stream, tolerates absent (never-opened) streams without
error or panic, and returns normally whatever errors `Flush()`/`Sync()`
produce; but those failures are silently discarded, never reported to the
fallback console channel (the trace contains no console print). -/
theorem flushAll_flushes_opened_tolerates_absent
    (fs : FS) (writers : List (Option BufferWriter))
    (hwf : ∀ sb, some sb ∈ writers → WFStream sb) :
    (∃ evs errs, flushAll fs writers = .ok (evs, errs)
      ∧ consoleOf evs = []
      ∧ (∀ sb bw, some sb ∈ writers → sb.writer = some bw →
          IOEv.flushW bw.fileId ∈ evs ∧ ∀ f, sb.file = some f → IOEv.syncF f ∈ evs))
    ∧ exitFn fs writers = flushAll fs writers := by
  refine ⟨?_, rfl⟩
  induction writers with
  | nil =>
    exact ⟨[], [], rfl, rfl, fun sb bw hm => absurd hm (List.not_mem_nil _)⟩
  | cons w rest ih =>
    have hwfr : ∀ sb, some sb ∈ rest → WFStream sb :=
      fun sb hm => hwf sb (List.mem_cons_of_mem _ hm)
    obtain ⟨evs, errs, heq, hcon, hmem⟩ := ih hwfr
    cases w with
    | none =>
      refine ⟨evs, errs, ?_, hcon, ?_⟩
      · exact heq
      · intro sb bw hm hbw
        rcases List.mem_cons.mp hm with h | h
        · exact Option.noConfusion h
        · exact hmem sb bw h hbw
    | some sb0 =>
      cases hbw0 : sb0.writer with
      | none =>
        refine ⟨evs, errs, ?_, hcon, ?_⟩
        · unfold flushAll
          rw [hbw0]
          exact heq
        · intro sb bw hm hbw
          rcases List.mem_cons.mp hm with h | h
          · have hs : sb = sb0 := by injection h
            rw [hs, hbw0] at hbw
            exact Option.noConfusion hbw
          · exact hmem sb bw h hbw
      | some bw0 =>
        have hfs : sb0.file.isSome := (hwf sb0 (List.mem_cons_self _ _)).mpr (by rw [hbw0]; rfl)
        rcases hf0 : sb0.file with _ | f0
        · rw [hf0] at hfs; exact Bool.noConfusion hfs
        · refine ⟨IOEv.flushW bw0.fileId :: IOEv.syncF f0 :: evs,
              ((fs.flushRes bw0.fileId).toList ++ (fs.syncRes f0).toList) ++ errs, ?_, ?_, ?_⟩
          · unfold flushAll
            rw [hbw0, hf0, heq]
          · simp only [consoleOf] at hcon ⊢
            simp [hcon]
          · intro sb bw hm hbw
            rcases List.mem_cons.mp hm with h | h
            · have hs : sb = sb0 := by injection h
              subst hs
              rw [hbw0] at hbw
              have hb : bw0 = bw := by injection hbw
              subst hb
              refine ⟨List.mem_cons_self _ _, ?_⟩
              intro f hfeq
              rw [hf0] at hfeq
              have : f0 = f := by injection hfeq
              subst this
              exact List.mem_cons_of_mem _ (List.mem_cons_self _ _)
            · obtain ⟨hm1, hm2⟩ := hmem sb bw h hbw
              exact ⟨List.mem_cons_of_mem _ (List.mem_cons_of_mem _ hm1),
                     fun f hfeq => List.mem_cons_of_mem _
                       (List.mem_cons_of_mem _ (hm2 f hfeq))⟩

theorem flushAll_witness :
    (∃ evs errs, flushAll fsFlushFail [some sbOpen, none, none, none, none, none] =
        .ok (evs, errs)
      ∧ consoleOf evs = []
      ∧ (∀ sb bw, some sb ∈ [some sbOpen, none, none, none, none, none] →
          sb.writer = some bw →
          IOEv.flushW bw.fileId ∈ evs ∧ ∀ f, sb.file = some f → IOEv.syncF f ∈ evs))
    ∧ exitFn fsFlushFail [some sbOpen, none, none, none, none, none] =
        flushAll fsFlushFail [some sbOpen, none, none, none, none, none] := by
  apply flushAll_flushes_opened_tolerates_absent
  intro sb hm
  have hs : sb = sbOpen := by simpa using hm
  rw [hs]
  decide

/-! ## Lemmas for the path-resolution claim -/

/-- A plain path segment: nonempty, not a dot segment, slash-free. -/
abbrev SimpleSeg (s : List Char) : Prop :=
  s ≠ [] ∧ s ≠ ['.'] ∧ s ≠ ['.', '.'] ∧ '/' ∉ s

theorem natCharsF_mem (fuel : Nat) :
    ∀ (n : Nat), ∀ c ∈ natCharsF fuel n, ∃ d, d < 10 ∧ c = digitChar d := by
  induction fuel with
  | zero => intro n c hc; exact absurd hc (List.not_mem_nil c)
  | succ fuel ih =>
    intro n c hc
    unfold natCharsF at hc
    by_cases h : n < 10
    · rw [if_pos h] at hc
      exact ⟨n, h, List.mem_singleton.mp hc⟩
    · rw [if_neg h] at hc
      rcases List.mem_append.mp hc with h2 | h2
      · exact ih (n / 10) c h2
      · exact ⟨n % 10, Nat.mod_lt _ (by omega), List.mem_singleton.mp h2⟩

theorem natCharsF_ne_nil (fuel n : Nat) (h : fuel ≠ 0) : natCharsF fuel n ≠ [] := by
  cases fuel with
  | zero => exact absurd rfl h
  | succ fuel =>
    unfold natCharsF
    by_cases h2 : n < 10
    · rw [if_pos h2]
      exact List.cons_ne_nil _ _
    · rw [if_neg h2]
      intro hcon
      exact List.cons_ne_nil _ _ (List.append_eq_nil.mp hcon).2

theorem fmt0_mem (w n : Nat) : ∀ c ∈ fmt0 w n, ∃ d, d < 10 ∧ c = digitChar d := by
  intro c hc
  unfold fmt0 pad0 natChars at hc
  rcases List.mem_append.mp hc with h | h
  · exact ⟨0, by omega, by rw [List.eq_of_mem_replicate h]; rfl⟩
  · exact natCharsF_mem _ _ c h

theorem fmt0_ne_nil (w n : Nat) : fmt0 w n ≠ [] := by
  unfold fmt0 pad0 natChars
  intro h
  exact natCharsF_ne_nil (n + 1) n (by omega) (List.append_eq_nil.mp h).2

theorem digitChar_ne (d : Nat) (hd : d < 10) : digitChar d ≠ '/' ∧ digitChar d ≠ '.' := by
  interval_cases d <;> exact ⟨by decide, by decide⟩

theorem digit_seg_simple (l : List Char) (hne : l ≠ [])
    (hd : ∀ c ∈ l, ∃ d, d < 10 ∧ c = digitChar d) : SimpleSeg l := by
  refine ⟨hne, ?_, ?_, ?_⟩
  · intro h
    obtain ⟨d, hd10, hc⟩ := hd '.' (by rw [h]; exact List.mem_singleton_self _)
    exact (digitChar_ne d hd10).2 hc.symm
  · intro h
    obtain ⟨d, hd10, hc⟩ := hd '.' (by rw [h]; exact List.mem_cons_self _ _)
    exact (digitChar_ne d hd10).2 hc.symm
  · intro h
    obtain ⟨d, hd10, hc⟩ := hd '/' h
    exact (digitChar_ne d hd10).1 hc.symm

theorem fmt0_simple (w n : Nat) : SimpleSeg (fmt0 w n) :=
  digit_seg_simple _ (fmt0_ne_nil w n) (fmt0_mem w n)

theorem fmt0_append_simple (w1 n1 w2 n2 : Nat) : SimpleSeg (fmt0 w1 n1 ++ fmt0 w2 n2) :=
  digit_seg_simple _
    (fun h => fmt0_ne_nil w1 n1 (List.append_eq_nil.mp h).1)
    (fun c hc => by
      rcases List.mem_append.mp hc with h | h
      · exact fmt0_mem w1 n1 c h
      · exact fmt0_mem w2 n2 c h)

/-! ### `List.splitOn '/'` and `joinSegs` -/

theorem splitOn_sep_append (a b : List Char) (ha : '/' ∉ a) :
    (a ++ '/' :: b).splitOn '/' = a :: b.splitOn '/' := by
  unfold List.splitOn
  exact List.splitOnP_first (· == '/') a
    (fun x hx => by simp only [beq_iff_eq]; exact fun h => ha (h ▸ hx)) '/' (by simp) b

theorem splitOn_no_sep (a : List Char) (ha : '/' ∉ a) : a.splitOn '/' = [a] := by
  unfold List.splitOn
  exact List.splitOnP_eq_single (· == '/') a
    (fun x hx => by simp only [beq_iff_eq]; exact fun h => ha (h ▸ hx))

theorem splitOn_cons_sep (b : List Char) : ('/' :: b).splitOn '/' = [] :: b.splitOn '/' := by
  unfold List.splitOn
  rw [List.splitOnP_cons, if_pos (by simp)]

theorem joinSegs_cons_cons (s t : List Char) (rest : List (List Char)) :
    joinSegs (s :: t :: rest) = s ++ '/' :: joinSegs (t :: rest) := rfl

theorem joinSegs_ne_nil (segs : List (List Char)) (hne : segs ≠ [])
    (hs : ∀ s ∈ segs, s ≠ []) : joinSegs segs ≠ [] := by
  cases segs with
  | nil => exact absurd rfl hne
  | cons s rest =>
    cases rest with
    | nil => exact hs s (List.mem_singleton_self _)
    | cons t ts =>
      rw [joinSegs_cons_cons]
      intro h
      exact hs s (List.mem_cons_self _ _) (List.append_eq_nil.mp h).1

theorem joinSegs_head? (s : List Char) (rest : List (List Char)) (hsne : s ≠ []) :
    (joinSegs (s :: rest)).head? = s.head? := by
  cases rest with
  | nil => rfl
  | cons t ts =>
    rw [joinSegs_cons_cons]
    exact List.head?_append_of_ne_nil _ hsne

theorem joinSegs_getLast?_ne_slash (segs : List (List Char)) (hne : segs ≠ [])
    (hs : ∀ s ∈ segs, SimpleSeg s) : (joinSegs segs).getLast? ≠ some '/' := by
  induction segs with
  | nil => exact absurd rfl hne
  | cons s rest ih =>
    cases rest with
    | nil =>
      intro h
      exact (hs s (List.mem_singleton_self _)).2.2.2 (List.mem_of_getLast?_eq_some h)
    | cons t ts =>
      rw [joinSegs_cons_cons, List.getLast?_append_cons]
      have hX : joinSegs (t :: ts) ≠ [] :=
        joinSegs_ne_nil _ (List.cons_ne_nil _ _) (fun x hx => (hs x (List.mem_cons_of_mem _ hx)).1)
      rw [show ('/' :: joinSegs (t :: ts)) = ['/'] ++ joinSegs (t :: ts) from rfl,
          List.getLast?_append_of_ne_nil _ hX]
      exact ih (List.cons_ne_nil _ _) (fun x hx => hs x (List.mem_cons_of_mem _ hx))

theorem joinSegs_append (xs ys : List (List Char)) (hx : xs ≠ []) (hy : ys ≠ []) :
    joinSegs (xs ++ ys) = joinSegs xs ++ '/' :: joinSegs ys := by
  induction xs with
  | nil => exact absurd rfl hx
  | cons s rest ih =>
    cases rest with
    | nil =>
      cases ys with
      | nil => exact absurd rfl hy
      | cons y yts => rfl
    | cons t ts =>
      rw [show ((s :: t :: ts) ++ ys) = s :: (t :: ts ++ ys) from rfl]
      rcases hcons : (t :: ts ++ ys) with _ | ⟨u, us⟩
      · exact absurd hcons (by simp)
      · rw [joinSegs_cons_cons, ← hcons, ih (List.cons_ne_nil _ _), joinSegs_cons_cons]
        simp

theorem splitOn_joinSegs (segs : List (List Char)) (hne : segs ≠ [])
    (hs : ∀ s ∈ segs, '/' ∉ s) : (joinSegs segs).splitOn '/' = segs := by
  induction segs with
  | nil => exact absurd rfl hne
  | cons s rest ih =>
    cases rest with
    | nil => exact splitOn_no_sep s (hs s (List.mem_singleton_self _))
    | cons t ts =>
      rw [joinSegs_cons_cons, splitOn_sep_append s _ (hs s (List.mem_cons_self _ _)),
          ih (List.cons_ne_nil _ _) (fun x hx => hs x (List.mem_cons_of_mem _ hx))]

theorem splitOn_joinSegs_append (segs : List (List Char)) (b : List Char)
    (hne : segs ≠ []) (hs : ∀ s ∈ segs, '/' ∉ s) :
    (joinSegs segs ++ '/' :: b).splitOn '/' = segs ++ b.splitOn '/' := by
  induction segs with
  | nil => exact absurd rfl hne
  | cons s rest ih =>
    cases rest with
    | nil => exact splitOn_sep_append s b (hs s (List.mem_singleton_self _))
    | cons t ts =>
      rw [joinSegs_cons_cons, List.append_assoc, List.cons_append,
          splitOn_sep_append s _ (hs s (List.mem_cons_self _ _)),
          ih (List.cons_ne_nil _ _) (fun x hx => hs x (List.mem_cons_of_mem _ hx))]
      rfl

theorem cleanSegsAux_simple_or_empty (rooted : Bool) (segs : List (List Char)) :
    ∀ acc, (∀ s ∈ segs, SimpleSeg s ∨ s = []) →
    cleanSegsAux rooted acc segs = acc ++ segs.filter (fun s => !s.isEmpty) := by
  induction segs with
  | nil =>
    intro acc _
    simp [cleanSegsAux]
  | cons seg rest ih =>
    intro acc h
    rcases h seg (List.mem_cons_self _ _) with hsimp | hemp
    · obtain ⟨h1, h2, h3, _⟩ := hsimp
      unfold cleanSegsAux
      rw [if_neg (by push_neg; exact ⟨h1, h2⟩), if_neg h3,
          ih (acc ++ [seg]) (fun s hs2 => h s (List.mem_cons_of_mem _ hs2)),
          List.filter_cons_of_pos (by
            rcases seg with _ | ⟨c, cs⟩
            · exact absurd rfl h1
            · rfl)]
      simp
    · subst hemp
      unfold cleanSegsAux
      rw [if_pos (Or.inl rfl),
          ih acc (fun s hs2 => h s (List.mem_cons_of_mem _ hs2)),
          List.filter_cons_of_neg (by decide)]

/-- The body of `goClean` on a nonempty path, with the `let` bindings expanded. -/
theorem goClean_expand (p : List Char) (hp : p ≠ []) :
    goClean p =
      if (if decide (p.head? = some '/') then ['/'] else []) ++
          joinSegs (cleanSegsAux (decide (p.head? = some '/')) [] (p.splitOn '/')) = []
      then ['.']
      else (if decide (p.head? = some '/') then ['/'] else []) ++
          joinSegs (cleanSegsAux (decide (p.head? = some '/')) [] (p.splitOn '/')) := by
  unfold goClean
  rw [if_neg hp]

/-- `path.Clean` is the identity on a path made of simple segments, with an
optional root and an optional trailing slash (which it strips). -/
theorem goClean_simple (root tr : List Char) (segs : List (List Char))
    (hroot : root = [] ∨ root = ['/']) (htr : tr = [] ∨ tr = ['/'])
    (hne : segs ≠ []) (hs : ∀ s ∈ segs, SimpleSeg s) :
    goClean (root ++ (joinSegs segs ++ tr)) = root ++ joinSegs segs := by
  have hsne : ∀ s ∈ segs, s ≠ [] := fun s h => (hs s h).1
  have hslash : ∀ s ∈ segs, '/' ∉ s := fun s h => (hs s h).2.2.2
  have hJne : joinSegs segs ≠ [] := joinSegs_ne_nil segs hne hsne
  obtain ⟨s0, rest0, hseg0⟩ : ∃ s0 rest0, segs = s0 :: rest0 := by
    cases segs with
    | nil => exact absurd rfl hne
    | cons a b => exact ⟨a, b, rfl⟩
  have hs0ne : s0 ≠ [] := hsne s0 (hseg0 ▸ List.mem_cons_self _ _)
  obtain ⟨c0, cs0, hc0⟩ : ∃ c0 cs0, s0 = c0 :: cs0 := by
    rcases hx : s0 with _ | ⟨c, cs⟩
    · exact absurd hx hs0ne
    · exact ⟨c, cs, rfl⟩
  have hc0ne : c0 ≠ '/' := by
    intro h
    exact hslash s0 (hseg0 ▸ List.mem_cons_self _ _)
      (by rw [hc0, h]; exact List.mem_cons_self _ _)
  have hJhead : (joinSegs segs).head? = some c0 := by
    rw [hseg0, joinSegs_head? s0 rest0 hs0ne, hc0]
    rfl
  obtain ⟨tsegs, hts1, hts2⟩ : ∃ tsegs, (joinSegs segs ++ tr).splitOn '/' = segs ++ tsegs
      ∧ ∀ s ∈ tsegs, s = [] := by
    rcases htr with h | h <;> subst h
    · refine ⟨[], ?_, by simp⟩
      rw [List.append_nil, splitOn_joinSegs segs hne hslash, List.append_nil]
    · refine ⟨[[]], ?_, by simp⟩
      rw [show joinSegs segs ++ ['/'] = joinSegs segs ++ '/' :: [] from rfl,
          splitOn_joinSegs_append segs [] hne hslash, List.splitOn_nil]
  have hfilter : (segs ++ tsegs).filter (fun s => !s.isEmpty) = segs := by
    rw [List.filter_append,
        List.filter_eq_self.mpr (fun s h => by
          cases s with
          | nil => exact absurd rfl (hsne [] h)
          | cons c cs => rfl),
        List.filter_eq_nil_iff.mpr (fun s h => by rw [hts2 s h]; decide),
        List.append_nil]
  have hsoe : ∀ s ∈ segs ++ tsegs, SimpleSeg s ∨ s = [] := by
    intro s hmem
    rcases List.mem_append.mp hmem with h | h
    · exact Or.inl (hs s h)
    · exact Or.inr (hts2 s h)
  rcases hroot with h | h <;> subst h
  · -- relative path
    rw [List.nil_append, List.nil_append]
    have hpne : joinSegs segs ++ tr ≠ [] := fun h => hJne (List.append_eq_nil.mp h).1
    have hnr : ¬((joinSegs segs ++ tr).head? = some '/') := by
      rw [List.head?_append_of_ne_nil _ hJne, hJhead]
      simp [hc0ne]
    rw [goClean_expand _ hpne, decide_eq_false hnr, if_neg Bool.false_ne_true,
        List.nil_append, hts1,
        cleanSegsAux_simple_or_empty false (segs ++ tsegs) [] hsoe,
        List.nil_append, hfilter, if_neg hJne]
  · -- rooted path
    have hform : ['/'] ++ (joinSegs segs ++ tr) = '/' :: (joinSegs segs ++ tr) := rfl
    rw [hform]
    have hpne : ('/' :: (joinSegs segs ++ tr)) ≠ [] := List.cons_ne_nil _ _
    have hr : ('/' :: (joinSegs segs ++ tr)).head? = some '/' := rfl
    rw [goClean_expand _ hpne, decide_eq_true hr, if_pos rfl,
        splitOn_cons_sep, hts1,
        cleanSegsAux_simple_or_empty true ([] :: (segs ++ tsegs)) [] (by
          intro s hmem
          rcases List.mem_cons.mp hmem with h | h
          · exact Or.inr h
          · exact hsoe s h),
        List.nil_append, List.filter_cons_of_neg (by decide), hfilter,
        if_neg (show ¬(['/'] ++ joinSegs segs = []) by simp)]

/-- The log file name is a simple path segment for every program level and
non-negative slot. -/
theorem logFileOf_simple (level : Level) (slot : Int) (t : GoTime)
    (hlev : level ≤ 5) (_hslot : 0 ≤ slot) : SimpleSeg (logFileOf level slot t) := by
  have htok : '/' ∉ levelNameTok level := by
    interval_cases level <;> decide
  have hfmtlen : 1 ≤ (fmt0 2 t.hour).length := List.length_pos.mpr (fmt0_ne_nil 2 t.hour)
  have hdig := fmt0_mem 2 t.hour
  have hlog4 : (".log".toList).length = 4 := rfl
  unfold logFileOf
  split_ifs with hsl
  · refine ⟨by simp, ?_, ?_, ?_⟩
    · intro h
      have hlen := congrArg List.length h
      simp only [List.length_append, List.length_cons, List.length_nil, hlog4] at hlen
      omega
    · intro h
      have hlen := congrArg List.length h
      simp only [List.length_append, List.length_cons, List.length_nil, hlog4] at hlen
      omega
    · intro h
      rcases List.mem_append.mp h with h2 | h2
      · exact htok h2
      rcases List.mem_cons.mp h2 with h3 | h3
      · exact absurd h3 (by decide)
      rcases List.mem_append.mp h3 with h4 | h4
      · obtain ⟨d, hd10, hc⟩ := hdig '/' h4
        exact (digitChar_ne d hd10).1 hc.symm
      · exact absurd h4 (by decide)
  · have hint : ∀ c ∈ intChars slot, ∃ d, d < 10 ∧ c = digitChar d := by
      intro c hc
      unfold intChars natChars at hc
      rw [if_neg (by omega)] at hc
      exact natCharsF_mem _ _ c hc
    refine ⟨by simp, ?_, ?_, ?_⟩
    · intro h
      have hlen := congrArg List.length h
      simp only [List.length_append, List.length_cons, List.length_nil, hlog4] at hlen
      omega
    · intro h
      have hlen := congrArg List.length h
      simp only [List.length_append, List.length_cons, List.length_nil, hlog4] at hlen
      omega
    · intro h
      rcases List.mem_append.mp h with h2 | h2
      · exact htok h2
      rcases List.mem_cons.mp h2 with h3 | h3
      · exact absurd h3 (by decide)
      rcases List.mem_append.mp h3 with h4 | h4
      · obtain ⟨d, hd10, hc⟩ := hdig '/' h4
        exact (digitChar_ne d hd10).1 hc.symm
      rcases List.mem_cons.mp h4 with h5 | h5
      · exact absurd h5 (by decide)
      rcases List.mem_append.mp h5 with h6 | h6
      · obtain ⟨d, hd10, hc⟩ := hint '/' h6
        exact (digitChar_ne d hd10).1 hc.symm
      · exact absurd h6 (by decide)

/-- C4: the path resolver produces the directory
`<base>/logs/<logName>/<YYYYMM>/<DD>` and the file name `<levelName>-<HH>.log`
for slot 0, `<levelName>-<HH>-<slot>.log` for slot > 0; the full file path is
the directory plus `/` plus the file name; and the level name tokens are the
fixed lowercase `output`/`debug`/`info`/`warn`/`error`/`action`.  The base
path ranges over all well-formed paths (optional leading `/`, nonempty
slash-free non-dot segments), and so does the log name. -/
theorem createFile_path_layout
    (basePath root : List Char) (bsegs : List (List Char))
    (logName : List Char) (level : Level) (slot : Int) (t : GoTime)
    (hbase : basePath = root ++ joinSegs bsegs)
    (hroot : root = [] ∨ root = ['/'])
    (hb : bsegs ≠ []) (hbs : ∀ s ∈ bsegs, SimpleSeg s) (hl : SimpleSeg logName)
    (hlev : level ≤ 5) (hslot : 0 ≤ slot) :
    logDirOf basePath logName t =
      basePath ++ '/' :: ("logs".toList ++ '/' :: (logName ++ '/' ::
        ((fmt0 4 t.year ++ fmt0 2 t.month) ++ '/' :: fmt0 2 t.day)))
    ∧ logFileOf level 0 t = levelNameTok level ++ '-' :: (fmt0 2 t.hour ++ ".log".toList)
    ∧ (0 < slot → logFileOf level slot t =
        levelNameTok level ++ '-' :: (fmt0 2 t.hour ++ '-' :: (intChars slot ++ ".log".toList)))
    ∧ goJoin (logDirOf basePath logName t) (logFileOf level slot t) =
        logDirOf basePath logName t ++ '/' :: logFileOf level slot t
    ∧ (levelNameTok levelDefault = "output".toList ∧ levelNameTok LevelDebug = "debug".toList
        ∧ levelNameTok LevelInfo = "info".toList ∧ levelNameTok LevelWarn = "warn".toList
        ∧ levelNameTok LevelError = "error".toList
        ∧ levelNameTok LevelAction = "action".toList) := by
  have hJne : joinSegs bsegs ≠ [] := joinSegs_ne_nil bsegs hb (fun s h => (hbs s h).1)
  have hymS : SimpleSeg (fmt0 4 t.year ++ fmt0 2 t.month) := fmt0_append_simple 4 t.year 2 t.month
  have hddS : SimpleSeg (fmt0 2 t.day) := fmt0_simple 2 t.day
  have hlogsS : SimpleSeg ("logs".toList) := by decide
  have hall : ∀ s ∈ bsegs ++ ["logs".toList, logName,
      fmt0 4 t.year ++ fmt0 2 t.month, fmt0 2 t.day], SimpleSeg s := by
    intro s hmem
    rcases List.mem_append.mp hmem with h | h
    · exact hbs s h
    rcases List.mem_cons.mp h with h2 | h2
    · exact h2 ▸ hlogsS
    rcases List.mem_cons.mp h2 with h3 | h3
    · exact h3 ▸ hl
    rcases List.mem_cons.mp h3 with h4 | h4
    · exact h4 ▸ hymS
    rcases List.mem_cons.mp h4 with h5 | h5
    · exact h5 ▸ hddS
    · exact absurd h5 (List.not_mem_nil s)
  have hallne : bsegs ++ ["logs".toList, logName,
      fmt0 4 t.year ++ fmt0 2 t.month, fmt0 2 t.day] ≠ [] := by simp
  have hlastne : basePath.getLast? ≠ some '/' := by
    rw [hbase]
    rcases hroot with h | h <;> subst h
    · rw [List.nil_append]
      exact joinSegs_getLast?_ne_slash bsegs hb hbs
    · rw [List.getLast?_append_of_ne_nil _ hJne]
      exact joinSegs_getLast?_ne_slash bsegs hb hbs
  have hens : ensureSlash basePath = basePath ++ ['/'] := by
    unfold ensureSlash
    rw [if_neg hlastne]
  have hbpne : ensureSlash basePath ++ "logs".toList ≠ [] := by
    rw [hens]
    simp
  have hdirArg : (ensureSlash basePath ++ "logs".toList) ++ '/' ::
        (logName ++ '/' :: ((fmt0 4 t.year ++ fmt0 2 t.month) ++ '/' :: (fmt0 2 t.day ++ ['/'])))
      = root ++ (joinSegs (bsegs ++ ["logs".toList, logName,
          fmt0 4 t.year ++ fmt0 2 t.month, fmt0 2 t.day]) ++ ['/']) := by
    rw [hens, hbase, joinSegs_append bsegs _ hb (by simp)]
    simp [joinSegs, List.append_assoc]
  have hdir : logDirOf basePath logName t = root ++ joinSegs (bsegs ++ ["logs".toList, logName,
      fmt0 4 t.year ++ fmt0 2 t.month, fmt0 2 t.day]) := by
    unfold logDirOf goJoin
    rw [if_neg (by
          intro hcon
          exact hbpne hcon.1),
        if_neg hbpne, if_neg (by simp), hdirArg]
    exact goClean_simple root ['/'] _ hroot (Or.inr rfl) hallne hall
  have hdirTemplate : logDirOf basePath logName t =
      basePath ++ '/' :: ("logs".toList ++ '/' :: (logName ++ '/' ::
        ((fmt0 4 t.year ++ fmt0 2 t.month) ++ '/' :: fmt0 2 t.day))) := by
    rw [hdir, joinSegs_append bsegs _ hb (by simp), hbase]
    simp [joinSegs, List.append_assoc]
  have hfileS : SimpleSeg (logFileOf level slot t) := logFileOf_simple level slot t hlev hslot
  have hfname : goJoin (logDirOf basePath logName t) (logFileOf level slot t) =
      logDirOf basePath logName t ++ '/' :: logFileOf level slot t := by
    rw [hdir]
    unfold goJoin
    have hdne : root ++ joinSegs (bsegs ++ ["logs".toList, logName,
        fmt0 4 t.year ++ fmt0 2 t.month, fmt0 2 t.day]) ≠ [] := by
      intro hcon
      exact joinSegs_ne_nil _ hallne (fun s h => (hall s h).1)
        (List.append_eq_nil.mp hcon).2
    rw [if_neg (fun hcon => hdne hcon.1), if_neg hdne, if_neg hfileS.1]
    have harg : (root ++ joinSegs (bsegs ++ ["logs".toList, logName,
          fmt0 4 t.year ++ fmt0 2 t.month, fmt0 2 t.day])) ++ '/' :: logFileOf level slot t
        = root ++ (joinSegs ((bsegs ++ ["logs".toList, logName,
            fmt0 4 t.year ++ fmt0 2 t.month, fmt0 2 t.day]) ++ [logFileOf level slot t]) ++ []) := by
      rw [List.append_nil, joinSegs_append _ _ hallne (by simp)]
      simp [joinSegs, List.append_assoc]
    rw [harg,
        goClean_simple root [] _ hroot (Or.inl rfl) (by simp) (by
          intro s hmem
          rcases List.mem_append.mp hmem with h | h
          · exact hall s h
          · rcases List.mem_cons.mp h with h2 | h2
            · exact h2 ▸ hfileS
            · exact absurd h2 (List.not_mem_nil s)),
        joinSegs_append _ _ hallne (by simp)]
    simp [joinSegs, List.append_assoc]
  refine ⟨hdirTemplate, ?_, ?_, hfname, by decide⟩
  · unfold logFileOf
    rw [if_pos (by decide)]
  · intro hpos
    unfold logFileOf
    rw [if_neg (by omega)]

theorem createFile_path_witness :
    logDirOf "/data".toList "mylog".toList ⟨2026, 10, 11, 7⟩ =
      "/data/logs/mylog/202610/11".toList
    ∧ logFileOf LevelError 0 ⟨2026, 10, 11, 7⟩ = "error-07.log".toList
    ∧ logFileOf LevelError 3 ⟨2026, 10, 11, 7⟩ = "error-07-3.log".toList
    ∧ goJoin (logDirOf "/data".toList "mylog".toList ⟨2026, 10, 11, 7⟩)
        (logFileOf LevelError 3 ⟨2026, 10, 11, 7⟩) =
      "/data/logs/mylog/202610/11/error-07-3.log".toList := by
  obtain ⟨h1, h2, h3, h4, _⟩ := createFile_path_layout "/data".toList ['/']
    ["data".toList] "mylog".toList LevelError 3 ⟨2026, 10, 11, 7⟩
    (by decide) (Or.inr rfl) (by decide) (by decide) (by decide) (by decide) (by decide)
  refine ⟨?_, ?_, ?_, ?_⟩
  · rw [h1]
    decide
  · rw [h2]
    decide
  · rw [h3 (by decide)]
    decide
  · rw [h4, h1, h3 (by decide)]
    decide

end Logtool
